import Mathlib

/-!
# Verification of the Databricks client wrapper (`src/databricks_client.py`)

This file shallowly embeds the `DatabricksClient` methods — in particular the
SQL-result normalization logic of `execute_sql_query` (lines 241–280) — and
proves/refutes the testable properties of the specification.

Modelling conventions:
* Python scalar/dynamic values are the inductive `PyVal`; a Python `dict`
  is an insertion-ordered association list (`List (String × PyVal)`), with
  `dictInsert` implementing Python's assignment semantics (updating an
  existing key keeps its position, a new key is appended).
* Calls into the vendor SDK are modelled by `SdkCall α`: either a returned
  value or a raised exception (carrying `str(e)`).
* Duck-typed attribute probing of the statement result (`hasattr` checks on
  `result.schema` / `result.manifest.schema`, and exceptions raised while
  extracting column names) is made explicit by `SchemaAttr` / `ManifestAttr`.
* `base64.b64decode` and `str.encode('utf-8')` are external library
  functions; they are passed as function parameters (oracles), so every
  theorem holds for all possible behaviours of those library calls.
-/

namespace DatabricksClient

/-- Python runtime values, as far as this client manipulates them. -/
inductive PyVal : Type where
  | str (s : String)
  | int (n : Int)
  | bool (b : Bool)
  | pynone
  | bytes (bs : List Nat)
  | list (xs : List PyVal)
  | dict (entries : List (String × PyVal))
deriving Repr

/-- Outcome of a call into the vendor SDK: a value, or a raised exception
(carrying the text `str(e)` used by the `except` blocks). -/
inductive SdkCall (α : Type) : Type where
  | ok (a : α)
  | exn (msg : String)
deriving Repr

/-! ## The SQL-result normalizer (`execute_sql_query`, lines 247–272) -/

/-- Line 270: `column_name = columns[i] if i < len(columns) else f"col_{i}"`. -/
def colName (columns : List String) (i : Nat) : String :=
  if i < columns.length then columns.getD i "" else "col_" ++ toString i

/-- Python dict assignment `d[k] = v`: if `k` is already a key its value is
updated in place (insertion order preserved), otherwise `(k, v)` is appended. -/
def dictInsert (d : List (String × PyVal)) (k : String) (v : PyVal) :
    List (String × PyVal) :=
  if d.any (fun p => p.1 = k) then
    d.map (fun p => if p.1 = k then (k, v) else p)
  else
    d ++ [(k, v)]

/-- The loop of lines 268–271: `for i, value in enumerate(row): row_dict[column_name] = value`,
with accumulator `d` (the dict built so far) and `i` the next index. -/
def buildRowAux (columns : List String) (d : List (String × PyVal)) (i : Nat) :
    List PyVal → List (String × PyVal)
  | [] => d
  | v :: vs => buildRowAux columns (dictInsert d (colName columns i) v) (i + 1) vs

/-- Lines 268–271: build `row_dict` for one row, starting from the empty dict. -/
def buildRowDict (columns : List String) (row : List PyVal) :
    List (String × PyVal) :=
  buildRowAux columns [] 0 row

/-- Lines 266–272: `for row in statement.result.data_array: … result_data.append(row_dict)`. -/
def processRows (columns : List String) (rows : List (List PyVal)) :
    List (List (String × PyVal)) :=
  rows.map (buildRowDict columns)

/-- The duck-typed `statement.result.schema` attribute (lines 250–252):
absent (`hasattr` is false), present but falsy (`None`), present with
extractable column names, or raising while the names are extracted. -/
inductive SchemaAttr : Type where
  | absent
  | falsy
  | cols (names : List String)
  | raisesOnAccess
deriving Repr, DecidableEq

/-- The `statement.result.manifest.schema` attribute (lines 255–256), probed
only when the manifest itself is present and truthy. -/
inductive ManifestSchemaAttr : Type where
  | absentAttr
  | cols (names : List String)
  | raisesOnAccess
deriving Repr, DecidableEq

/-- The duck-typed `statement.result.manifest` attribute (lines 253–257). -/
inductive ManifestAttr : Type where
  | absent
  | falsy
  | present (schema : ManifestSchemaAttr)
deriving Repr, DecidableEq

/-- The `statement.result` object: row data plus the two possible schema
locations. -/
structure StmtResult : Type where
  data_array : List (List PyVal)
  schema : SchemaAttr
  manifest : ManifestAttr
deriving Repr

/-- The `except` fallback of lines 258–264: generic names `col_0 … col_{m-1}`
from the arity of the first row; if `data_array` is falsy, `columns` keeps
its initial value `[]`. -/
def syntheticCols (rows : List (List PyVal)) : List String :=
  match rows with
  | [] => []
  | first :: _ => (List.range first.length).map (fun i => "col_" ++ toString i)

/-- Lines 248–264: resolve the column names. The direct `schema` attribute is
probed first; only when it is absent or falsy is `manifest.schema` probed; an
exception raised while extracting names from either location is caught and
triggers the synthetic fallback; if neither location offers names and nothing
raised, `columns` stays `[]`. -/
def resolveColumns (r : StmtResult) : List String :=
  match r.schema with
  | SchemaAttr.cols names => names
  | SchemaAttr.raisesOnAccess => syntheticCols r.data_array
  | SchemaAttr.absent | SchemaAttr.falsy =>
    match r.manifest with
    | ManifestAttr.present (ManifestSchemaAttr.cols names) => names
    | ManifestAttr.present ManifestSchemaAttr.raisesOnAccess => syntheticCols r.data_array
    | ManifestAttr.present ManifestSchemaAttr.absentAttr => []
    | ManifestAttr.absent | ManifestAttr.falsy => []

/-- Lines 247–272: the whole normalization block, producing `result_data`. -/
def normalize (r : StmtResult) : List (List (String × PyVal)) :=
  processRows (resolveColumns r) r.data_array

/-! ## The client methods (return values modelled as `PyVal`) -/

/-- `test_connection` (lines 43–62): the SDK call `current_user.me()` yields
the user name; failure yields `{'success': False, 'error': str(e)}`. -/
def test_connection (host : String) (call : SdkCall String) : PyVal :=
  match call with
  | SdkCall.ok userName =>
    PyVal.dict [("success", PyVal.bool true), ("user", PyVal.str userName),
      ("workspace_url", PyVal.str host)]
  | SdkCall.exn e =>
    PyVal.dict [("success", PyVal.bool false), ("error", PyVal.str e)]

/-- `upload_file_to_workspace` (lines 64–100): base64-encoding of bytes never
raises, so the only failure source is the SDK `workspace.upload` call. -/
def upload_file_to_workspace (workspace_path : String) (call : SdkCall Unit) :
    PyVal :=
  match call with
  | SdkCall.ok _ =>
    PyVal.dict [("success", PyVal.bool true), ("path", PyVal.str workspace_path),
      ("message", PyVal.str ("File uploaded successfully to " ++ workspace_path))]
  | SdkCall.exn e =>
    PyVal.dict [("success", PyVal.bool false), ("error", PyVal.str e)]

/-- `create_notebook_from_template` (lines 102–134). -/
def create_notebook_from_template (notebook_path : String) (call : SdkCall Unit) :
    PyVal :=
  match call with
  | SdkCall.ok _ =>
    PyVal.dict [("success", PyVal.bool true), ("path", PyVal.str notebook_path),
      ("message", PyVal.str ("Notebook created successfully at " ++ notebook_path))]
  | SdkCall.exn e =>
    PyVal.dict [("success", PyVal.bool false), ("error", PyVal.str e)]

/-- One object returned by `workspace.list` (lines 150–155): `object_type` and
`language` carry the `.value` of the enum when present. -/
structure ObjectInfo : Type where
  path : String
  object_type : Option String
  language : Option String
deriving Repr

/-- `list_workspace_files` (lines 136–161): on success a *list* of dicts; on
any exception the *empty list* — not a `success`-flagged dict. -/
def list_workspace_files (call : SdkCall (List ObjectInfo)) : PyVal :=
  match call with
  | SdkCall.ok objects =>
    PyVal.list (objects.map (fun obj =>
      PyVal.dict [("path", PyVal.str obj.path),
        ("object_type", PyVal.str (obj.object_type.getD "unknown")),
        ("language", match obj.language with
          | some v => PyVal.str v
          | none => PyVal.pynone)]))
  | SdkCall.exn _ => PyVal.list []

/-- One cluster returned by `clusters.list` (lines 311–317). -/
structure ClusterInfo : Type where
  cluster_id : String
  cluster_name : String
  state : Option String
  node_type_id : String
deriving Repr

/-- `get_clusters` (lines 300–323): on success a *list* of dicts; on any
exception the *empty list* — not a `success`-flagged dict. -/
def get_clusters (call : SdkCall (List ClusterInfo)) : PyVal :=
  match call with
  | SdkCall.ok clusters =>
    PyVal.list (clusters.map (fun c =>
      PyVal.dict [("cluster_id", PyVal.str c.cluster_id),
        ("cluster_name", PyVal.str c.cluster_name),
        ("state", PyVal.str (c.state.getD "unknown")),
        ("node_type_id", PyVal.str c.node_type_id)]))
  | SdkCall.exn _ => PyVal.list []

/-- The `.content` of the object returned by `workspace.export` (line 180):
falsy (`None` / empty), a `bytes` payload, or a `str` payload. The Python
truthiness test `exported_content and exported_content.content` is the checks
on emptiness below. -/
inductive ExportContent : Type where
  | absent
  | bytes (bs : List Nat)
  | str (s : String)
deriving Repr, DecidableEq

/-- `export_workspace_file` (lines 163–200). `b64s`/`b64b` model
`base64.b64decode` on a `str`/`bytes` argument (`none` = it raised); `enc`
models `str.encode('utf-8')`. Any exception from the SDK export call itself
returns `None`; content that fails to base64-decode is returned as bytes
directly (if already bytes) or UTF-8 encoded (if a str). -/
def export_workspace_file (b64s : String → Option (List Nat))
    (b64b : List Nat → Option (List Nat)) (enc : String → List Nat)
    (call : SdkCall ExportContent) : PyVal :=
  match call with
  | SdkCall.exn _ => PyVal.pynone
  | SdkCall.ok content =>
    match content with
    | ExportContent.absent => PyVal.pynone
    | ExportContent.bytes bs =>
      if bs = [] then PyVal.pynone
      else
        match b64b bs with
        | some decoded => PyVal.bytes decoded
        | none => PyVal.bytes bs
    | ExportContent.str s =>
      if s = "" then PyVal.pynone
      else
        match b64s s with
        | some decoded => PyVal.bytes decoded
        | none => PyVal.bytes (enc s)

/-- `statement.status.state` (SDK enum `StatementState`), with the string the
Python f-string interpolation produces for the error message of line 282. -/
inductive StatementState : Type where
  | succeeded
  | failed
  | canceled
  | pending
deriving Repr, DecidableEq

/-- The f-string rendering of a `StatementState` value. -/
def StatementState.toStr : StatementState → String
  | StatementState.succeeded => "StatementState.SUCCEEDED"
  | StatementState.failed => "StatementState.FAILED"
  | StatementState.canceled => "StatementState.CANCELLED"
  | StatementState.pending => "StatementState.PENDING"

/-- `statement.status` (lines 239, 282–284): the state plus the optional
`error.message`. -/
structure StmtStatus : Type where
  state : StatementState
  error : Option String
deriving Repr

/-- The statement object returned by `statement_execution.execute_statement`
(lines 232–236): id, status, and the optional result (`statement.result` may
be `None`). -/
structure Statement : Type where
  statement_id : String
  status : StmtStatus
  result : Option StmtResult
deriving Repr

/-- `execute_sql_query` (lines 202–298). `warehouse_id` is the optional
argument; `listWarehouses` models `warehouses.list()` (yielding the ids);
`execStmt` models `statement_execution.execute_statement` on the chosen
warehouse id. Exceptions from either SDK call are caught by the outer
`except` (lines 293–298). -/
def execute_sql_query (warehouse_id : Option String)
    (listWarehouses : SdkCall (List String))
    (execStmt : String → SdkCall Statement) : PyVal :=
  let chosen : PyVal ⊕ String :=
    match warehouse_id with
    | some w => Sum.inr w
    | none =>
      match listWarehouses with
      | SdkCall.exn e =>
        Sum.inl (PyVal.dict [("success", PyVal.bool false), ("error", PyVal.str e)])
      | SdkCall.ok [] =>
        Sum.inl (PyVal.dict [("success", PyVal.bool false),
          ("error", PyVal.str "No SQL warehouses available")])
      | SdkCall.ok (w :: _) => Sum.inr w
  match chosen with
  | Sum.inl earlyReturn => earlyReturn
  | Sum.inr wid =>
    match execStmt wid with
    | SdkCall.exn e =>
      PyVal.dict [("success", PyVal.bool false), ("error", PyVal.str e)]
    | SdkCall.ok statement =>
      match statement.status.state with
      | StatementState.succeeded =>
        let result_data : List (List (String × PyVal)) :=
          match statement.result with
          | none => []
          | some r =>
            match r.data_array with
            | [] => []
            | _ :: _ => normalize r
        PyVal.dict [("success", PyVal.bool true),
          ("data", PyVal.list (result_data.map PyVal.dict)),
          ("statement_id", PyVal.str statement.statement_id),
          ("warehouse_id", PyVal.str wid)]
      | st =>
        let base := "Query failed with state: " ++ st.toStr
        let msg :=
          match statement.status.error with
          | some m => base ++ ", Error: " ++ m
          | none => base
        PyVal.dict [("success", PyVal.bool false), ("error", PyVal.str msg),
          ("statement_id", PyVal.str statement.statement_id)]

/-- Whether a return value is a Python dict carrying a `success` key. -/
def hasSuccessFlag (v : PyVal) : Bool :=
  match v with
  | PyVal.dict entries => entries.any (fun p => p.1 = "success")
  | _ => false

/-! ## Decimal rendering of `Nat` is injective

The synthetic names are `f"col_{i}"`, i.e. `"col_" ++ toString i`; several
properties need that distinct indices give distinct names. Lean core renders
`toString (n : Nat)` via `Nat.toDigitsCore` with fuel; we characterise it by
the fuel-free recursion `repChars` and prove a decimal round-trip. -/

/-- Fuel-free decimal rendering: most-significant digit first. -/
def repChars (n : Nat) : List Char :=
  if n < 10 then [Nat.digitChar n]
  else repChars (n / 10) ++ [Nat.digitChar (n % 10)]
decreasing_by exact Nat.div_lt_self (by omega) (by omega)

theorem toDigitsCore_eq_repChars :
    ∀ (f n : Nat) (ds : List Char), n < f →
      Nat.toDigitsCore 10 f n ds = repChars n ++ ds := by
  intro f
  induction f with
  | zero => intro n ds h; omega
  | succ f ih =>
    intro n ds h
    show (if n / 10 = 0 then Nat.digitChar (n % 10) :: ds
      else Nat.toDigitsCore 10 f (n / 10) (Nat.digitChar (n % 10) :: ds)) =
      repChars n ++ ds
    by_cases h10 : n < 10
    · have hz : n / 10 = 0 := Nat.div_eq_of_lt h10
      have hm : n % 10 = n := Nat.mod_eq_of_lt h10
      rw [if_pos hz, repChars, if_pos h10, hm]
      rfl
    · have hz : n / 10 ≠ 0 := by omega
      rw [if_neg hz, ih (n / 10) _ (by
        have h1 : n / 10 < n := Nat.div_lt_self (by omega) (by omega)
        omega)]
      conv_rhs => rw [repChars]
      rw [if_neg h10, List.append_assoc]
      rfl

/-- Value of a digit string, used only to invert `repChars`. -/
def charsVal (cs : List Char) : Nat :=
  cs.foldl (fun acc c => acc * 10 + (c.toNat - 48)) 0

theorem charsVal_append_digit (l : List Char) (c : Char) :
    charsVal (l ++ [c]) = charsVal l * 10 + (c.toNat - 48) := by
  unfold charsVal
  rw [List.foldl_append]
  rfl

theorem digitChar_toNat_sub (n : Nat) (h : n < 10) :
    (Nat.digitChar n).toNat - 48 = n := by
  interval_cases n <;> rfl

theorem charsVal_repChars (n : Nat) : charsVal (repChars n) = n := by
  induction n using Nat.strong_induction_on with
  | _ n ih =>
    by_cases h10 : n < 10
    · rw [repChars, if_pos h10]
      show 0 * 10 + ((Nat.digitChar n).toNat - 48) = n
      rw [digitChar_toNat_sub n h10]
      omega
    · rw [repChars, if_neg h10, charsVal_append_digit,
        ih (n / 10) (Nat.div_lt_self (by omega) (by omega)),
        digitChar_toNat_sub (n % 10) (Nat.mod_lt n (by omega))]
      omega

theorem natToString_inj {m n : Nat} (h : toString m = toString n) : m = n := by
  have hm : toString m = (repChars m).asString := by
    show Nat.repr m = (repChars m).asString
    unfold Nat.repr Nat.toDigits
    rw [toDigitsCore_eq_repChars (m + 1) m [] (Nat.lt_succ_self m), List.append_nil]
  have hn : toString n = (repChars n).asString := by
    show Nat.repr n = (repChars n).asString
    unfold Nat.repr Nat.toDigits
    rw [toDigitsCore_eq_repChars (n + 1) n [] (Nat.lt_succ_self n), List.append_nil]
  have hdata : repChars m = repChars n := by
    have := congrArg String.data (hm ▸ hn ▸ h)
    exact this
  have := congrArg charsVal hdata
  rwa [charsVal_repChars, charsVal_repChars] at this

theorem colI_inj {i j : Nat} (h : "col_" ++ toString i = "col_" ++ toString j) :
    i = j := by
  apply natToString_inj
  have hdata := congrArg String.data h
  rw [String.data_append, String.data_append] at hdata
  have := List.append_cancel_left hdata
  exact String.ext this

theorem colI_ne {i j : Nat} (h : i ≠ j) :
    ("col_" ++ toString i : String) ≠ "col_" ++ toString j :=
  fun hc => h (colI_inj hc)

/-! ## Properties of the dict-building loop -/

/-- The keys of a dict, in insertion order. -/
def keysOf (d : List (String × PyVal)) : List String :=
  d.map Prod.fst

theorem keysOf_append (d e : List (String × PyVal)) :
    keysOf (d ++ e) = keysOf d ++ keysOf e :=
  List.map_append _ d e

theorem any_key_eq (d : List (String × PyVal)) (k : String) :
    (d.any fun p => p.1 = k) = true ↔ k ∈ keysOf d := by
  simp [keysOf, List.any_eq_true, List.mem_map]

theorem dictInsert_of_not_mem {d : List (String × PyVal)} {k : String}
    (v : PyVal) (h : k ∉ keysOf d) : dictInsert d k v = d ++ [(k, v)] := by
  unfold dictInsert
  rw [if_neg]
  intro hc
  exact h ((any_key_eq d k).mp hc)

theorem keysOf_dictInsert (d : List (String × PyVal)) (k : String) (v : PyVal) :
    keysOf (dictInsert d k v) = keysOf d ∨
      keysOf (dictInsert d k v) = keysOf d ++ [k] := by
  unfold dictInsert
  by_cases h : (d.any fun p => p.1 = k) = true
  · left
    rw [if_pos h]
    unfold keysOf
    rw [List.map_map]
    apply List.map_congr_left
    intro p _
    by_cases hk : p.1 = k
    · simp [hk]
    · simp [hk]
  · right
    rw [if_neg h]
    exact keysOf_append d [(k, v)]

theorem keysOf_dictInsert_nodup {d : List (String × PyVal)} {k : String}
    {v : PyVal} (h : (keysOf d).Nodup) : (keysOf (dictInsert d k v)).Nodup := by
  unfold dictInsert
  by_cases hmem : (d.any fun p => p.1 = k) = true
  · rw [if_pos hmem]
    have : keysOf (d.map fun p => if p.1 = k then (k, v) else p) = keysOf d := by
      unfold keysOf
      rw [List.map_map]
      apply List.map_congr_left
      intro p _
      by_cases hk : p.1 = k
      · simp [hk]
      · simp [hk]
    rw [this]
    exact h
  · rw [if_neg hmem, keysOf_append]
    refine List.Nodup.append h (List.nodup_singleton k) ?_
    intro a ha hb
    have : a = k := by simpa [keysOf] using hb
    subst this
    exact hmem ((any_key_eq d a).mpr ha)

theorem mem_dictInsert_self (d : List (String × PyVal)) (k : String) (v : PyVal) :
    (k, v) ∈ dictInsert d k v := by
  unfold dictInsert
  by_cases hmem : (d.any fun p => p.1 = k) = true
  · rw [if_pos hmem]
    have := (any_key_eq d k).mp hmem
    simp only [keysOf, List.mem_map] at this
    obtain ⟨p, hp, hpk⟩ := this
    refine List.mem_map.mpr ⟨p, hp, ?_⟩
    rw [if_pos hpk]
  · rw [if_neg hmem]
    exact List.mem_append_right d (List.mem_singleton.mpr rfl)

theorem mem_dictInsert_of_ne {d : List (String × PyVal)} {k : String}
    {v : PyVal} (h : (k, v) ∈ d) (k2 : String) (v2 : PyVal) (hne : k2 ≠ k) :
    (k, v) ∈ dictInsert d k2 v2 := by
  unfold dictInsert
  by_cases hmem : (d.any fun p => p.1 = k2) = true
  · rw [if_pos hmem]
    refine List.mem_map.mpr ⟨(k, v), h, ?_⟩
    rw [if_neg (fun hc => hne (Eq.symm hc))]
  · rw [if_neg hmem]
    exact List.mem_append_left _ h

/-- The association list the row loop would build if no key ever collided:
position `i + t` of the remaining values `vs` is paired with its column name. -/
def assignedPairs (columns : List String) (i : Nat) : List PyVal → List (String × PyVal)
  | [] => []
  | v :: vs => (colName columns i, v) :: assignedPairs columns (i + 1) vs

theorem assignedPairs_length (columns : List String) :
    ∀ (vs : List PyVal) (i : Nat), (assignedPairs columns i vs).length = vs.length := by
  intro vs
  induction vs with
  | nil => intro i; rfl
  | cons v vs ih => intro i; simp [assignedPairs, ih]

theorem keysOf_assignedPairs (columns : List String) :
    ∀ (vs : List PyVal) (i : Nat),
      keysOf (assignedPairs columns i vs) =
        (List.range' i vs.length).map (colName columns) := by
  intro vs
  induction vs with
  | nil => intro i; rfl
  | cons v vs ih =>
    intro i
    show colName columns i :: keysOf (assignedPairs columns (i + 1) vs) = _
    rw [ih (i + 1), List.length_cons, List.range'_succ]
    rfl

theorem sndOf_assignedPairs (columns : List String) :
    ∀ (vs : List PyVal) (i : Nat),
      (assignedPairs columns i vs).map Prod.snd = vs := by
  intro vs
  induction vs with
  | nil => intro i; rfl
  | cons v vs ih =>
    intro i
    show v :: (assignedPairs columns (i + 1) vs).map Prod.snd = v :: vs
    rw [ih (i + 1)]

/-- When the names assigned along `vs` are pairwise distinct and fresh for the
accumulated dict `d`, no `dictInsert` ever updates in place, so the loop just
appends the assigned pairs. -/
theorem buildRowAux_eq_append (columns : List String) :
    ∀ (vs : List PyVal) (d : List (String × PyVal)) (i : Nat),
      (keysOf (assignedPairs columns i vs)).Nodup →
      (∀ k ∈ keysOf (assignedPairs columns i vs), k ∉ keysOf d) →
      buildRowAux columns d i vs = d ++ assignedPairs columns i vs := by
  intro vs
  induction vs with
  | nil => intro d i _ _; exact (List.append_nil d).symm
  | cons v vs ih =>
    intro d i hnd hfresh
    have hhead : colName columns i ∈ keysOf (assignedPairs columns i (v :: vs)) :=
      List.mem_cons_self _ _
    have hkeys : keysOf (assignedPairs columns i (v :: vs)) =
        colName columns i :: keysOf (assignedPairs columns (i + 1) vs) := rfl
    rw [hkeys] at hnd hfresh
    show buildRowAux columns (dictInsert d (colName columns i) v) (i + 1) vs = _
    rw [dictInsert_of_not_mem v (hfresh _ (List.mem_cons_self _ _))]
    rw [ih (d ++ [(colName columns i, v)]) (i + 1) hnd.of_cons]
    · rw [List.append_assoc]
      rfl
    · intro k hk
      rw [keysOf_append]
      intro hc
      rcases List.mem_append.mp hc with hcd | hcs
      · exact hfresh k (List.mem_cons_of_mem _ hk) hcd
      · have : k = colName columns i := by simpa [keysOf] using hcs
        rw [List.nodup_cons] at hnd
        exact hnd.1 (this ▸ hk)

theorem keysOf_buildRowAux_nodup (columns : List String) :
    ∀ (vs : List PyVal) (d : List (String × PyVal)) (i : Nat),
      (keysOf d).Nodup → (keysOf (buildRowAux columns d i vs)).Nodup := by
  intro vs
  induction vs with
  | nil => intro d i h; exact h
  | cons v vs ih =>
    intro d i h
    exact ih _ (i + 1) (keysOf_dictInsert_nodup h)

theorem keysOf_buildRowDict_nodup (columns : List String) (row : List PyVal) :
    (keysOf (buildRowDict columns row)).Nodup :=
  keysOf_buildRowAux_nodup columns row [] 0 List.nodup_nil

/-! ## The two regimes of `colName`: real schema names, and synthetic names -/

theorem colName_eq_getElem {columns : List String} {j : Nat}
    (h : j < columns.length) : colName columns j = columns[j] := by
  unfold colName
  rw [if_pos h, List.getD_eq_getElem columns "" h]

theorem colName_synthetic {columns : List String} {j : Nat}
    (h : columns.length ≤ j) : colName columns j = "col_" ++ toString j := by
  unfold colName
  rw [if_neg (by omega)]

theorem assignedPairs_eq_zip (columns : List String) :
    ∀ (vs : List PyVal) (i : Nat), i + vs.length ≤ columns.length →
      assignedPairs columns i vs = (columns.drop i).zip vs := by
  intro vs
  induction vs with
  | nil => intro i _; exact (List.zip_nil_right).symm
  | cons v vs ih =>
    intro i h
    have hi : i < columns.length := by simp at h; omega
    show (colName columns i, v) :: assignedPairs columns (i + 1) vs = _
    rw [List.drop_eq_getElem_cons hi, List.zip_cons_cons,
      ih (i + 1) (by simp at h ⊢; omega), colName_eq_getElem hi]

/-- With pairwise-distinct column names covering the whole row, the assigned
names are exactly the column names, hence distinct. -/
theorem keysOf_assignedPairs_nodup_of_cols {columns : List String}
    (hnd : columns.Nodup) (vs : List PyVal) (hlen : vs.length ≤ columns.length) :
    (keysOf (assignedPairs columns 0 vs)).Nodup := by
  rw [keysOf_assignedPairs]
  apply List.Nodup.map_on
  · intro x hx y hy hxy
    rw [List.mem_range'_1] at hx hy
    rw [colName_eq_getElem (by omega), colName_eq_getElem (by omega)] at hxy
    exact (List.Nodup.getElem_inj_iff hnd).mp hxy
  · exact List.nodup_range' _ _

theorem buildRowDict_eq_zip {columns : List String} {row : List PyVal}
    (hnd : columns.Nodup) (hlen : row.length = columns.length) :
    buildRowDict columns row = columns.zip row := by
  unfold buildRowDict
  rw [buildRowAux_eq_append columns row [] 0
    (keysOf_assignedPairs_nodup_of_cols hnd row (le_of_eq hlen))
    (fun k _ hk => by simp [keysOf] at hk)]
  rw [List.nil_append, assignedPairs_eq_zip columns row 0 (by omega),
    List.drop_zero]

/-- Fully synthetic regime: every position `j` gets the name `col_j`. -/
theorem assignedPairs_syntheticNames {columns : List String}
    (hcol : ∀ j, colName columns j = "col_" ++ toString j) :
    ∀ (vs : List PyVal) (i : Nat),
      assignedPairs columns i vs =
        (List.enumFrom i vs).map (fun p => ("col_" ++ toString p.1, p.2)) := by
  intro vs
  induction vs with
  | nil => intro i; rfl
  | cons v vs ih =>
    intro i
    show (colName columns i, v) :: assignedPairs columns (i + 1) vs = _
    rw [hcol i, ih (i + 1)]
    rfl

theorem keysOf_assignedPairs_nodup_of_synthetic {columns : List String}
    (hcol : ∀ j, colName columns j = "col_" ++ toString j)
    (vs : List PyVal) (i : Nat) :
    (keysOf (assignedPairs columns i vs)).Nodup := by
  rw [keysOf_assignedPairs]
  apply List.Nodup.map_on
  · intro x hx y hy hxy
    rw [hcol x, hcol y] at hxy
    exact colI_inj hxy
  · exact List.nodup_range' _ _

/-- What the spec calls the synthetic-naming fallback: one RowRecord whose
keys are `col_0 … col_{n-1}` (insertion order) with the row's values. -/
def specSyntheticRecord (row : List PyVal) : List (String × PyVal) :=
  row.enum.map (fun p => ("col_" ++ toString p.1, p.2))

theorem buildRowDict_synthetic {columns : List String}
    (hcol : ∀ j, colName columns j = "col_" ++ toString j) (row : List PyVal) :
    buildRowDict columns row = specSyntheticRecord row := by
  unfold buildRowDict specSyntheticRecord
  rw [buildRowAux_eq_append columns row [] 0
    (keysOf_assignedPairs_nodup_of_synthetic hcol row 0)
    (fun k _ hk => by simp [keysOf] at hk)]
  rw [List.nil_append, assignedPairs_syntheticNames hcol row 0]
  rfl

/-! ## Schema resolution regimes -/

/-- Whether the direct `schema` probe of lines 250–252 yields column names. -/
def schemaGivesNames : SchemaAttr → Bool
  | SchemaAttr.cols _ => true
  | _ => false

/-- Whether the `manifest.schema` probe of lines 253–257 yields column names. -/
def manifestGivesNames : ManifestAttr → Bool
  | ManifestAttr.present (ManifestSchemaAttr.cols _) => true
  | _ => false

/-- Schema metadata is missing or malformed: neither probe yields names
(each location is absent, falsy, lacks the attribute, or raises). -/
def badSchema (r : StmtResult) : Prop :=
  schemaGivesNames r.schema = false ∧ manifestGivesNames r.manifest = false

theorem resolveColumns_of_bad {r : StmtResult} (h : badSchema r) :
    resolveColumns r = [] ∨ resolveColumns r = syntheticCols r.data_array := by
  obtain ⟨hs, hm⟩ := h
  unfold resolveColumns
  cases hsch : r.schema with
  | cols names => rw [hsch] at hs; exact absurd hs (by simp [schemaGivesNames])
  | raisesOnAccess => right; rfl
  | absent | falsy =>
    cases hman : r.manifest with
    | absent | falsy => left; rfl
    | present ms =>
      cases ms with
      | cols names =>
        rw [hman] at hm
        exact absurd hm (by simp [manifestGivesNames])
      | raisesOnAccess => right; rfl
      | absentAttr => left; rfl

theorem colName_syntheticCols (rows : List (List PyVal)) (j : Nat) :
    colName (syntheticCols rows) j = "col_" ++ toString j := by
  cases rows with
  | nil => simp [syntheticCols, colName]
  | cons first rest =>
    have hsyn : syntheticCols (first :: rest) =
        (List.range first.length).map (fun i => "col_" ++ toString i) := rfl
    rw [hsyn]
    unfold colName
    by_cases h : j < first.length
    · rw [if_pos (by simpa using h),
        List.getD_eq_getElem _ "" (by simpa using h)]
      simp
    · rw [if_neg (by simpa using h)]

theorem colName_resolve_bad {r : StmtResult} (h : badSchema r) (j : Nat) :
    colName (resolveColumns r) j = "col_" ++ toString j := by
  rcases resolveColumns_of_bad h with he | he <;> rw [he]
  · simp [colName]
  · exact colName_syntheticCols r.data_array j

/-! ## Membership in the built dict -/

/-- A pair already in the accumulated dict survives the rest of the loop as
long as no later position is assigned its key. -/
theorem mem_buildRowAux_of_mem (columns : List String) :
    ∀ (vs : List PyVal) (d : List (String × PyVal)) (i0 : Nat) (k : String)
      (v : PyVal), (k, v) ∈ d → (∀ j, i0 ≤ j → colName columns j ≠ k) →
      (k, v) ∈ buildRowAux columns d i0 vs := by
  intro vs
  induction vs with
  | nil => intro d i0 k v hd _; exact hd
  | cons w vs ih =>
    intro d i0 k v hd hnames
    exact ih (dictInsert d (colName columns i0) w) (i0 + 1) k v
      (mem_dictInsert_of_ne hd (colName columns i0) w (hnames i0 le_rfl))
      (fun j hj => hnames j (by omega))

/-- The pair assigned at position `i0 + t` is in the final dict as long as no
later position is assigned the same name. -/
theorem mem_buildRowAux_at (columns : List String) :
    ∀ (vs : List PyVal) (d : List (String × PyVal)) (i0 t : Nat) (ht : t < vs.length),
      (∀ j, i0 + t < j → colName columns j ≠ colName columns (i0 + t)) →
      (colName columns (i0 + t), vs.get ⟨t, ht⟩) ∈ buildRowAux columns d i0 vs := by
  intro vs
  induction vs with
  | nil => intro d i0 t ht _; exact absurd ht (by simp)
  | cons w vs ih =>
    intro d i0 t ht hnames
    cases t with
    | zero =>
      show (colName columns (i0 + 0), w) ∈
        buildRowAux columns (dictInsert d (colName columns i0) w) (i0 + 1) vs
      have h0 : i0 + 0 = i0 := rfl
      rw [h0]
      exact mem_buildRowAux_of_mem columns vs _ (i0 + 1) _ w
        (mem_dictInsert_self d (colName columns i0) w)
        (fun j hj => by
          have := hnames j (by omega)
          rw [h0] at this
          exact this)
    | succ t =>
      have harith : i0 + (t + 1) = (i0 + 1) + t := by omega
      have hlt : t < vs.length := by simpa using ht
      have hmem := ih (dictInsert d (colName columns i0) w) (i0 + 1) t hlt
        (fun j hj => by
          rw [← harith]
          exact hnames j (by omega))
      rw [← harith] at hmem
      exact hmem

/-- The keys of a row dict, when the names assigned to the row's positions are
pairwise distinct, are exactly one per position. -/
theorem keysOf_buildRowDict_length {columns : List String} {row : List PyVal}
    (hnd : ((List.range row.length).map (colName columns)).Nodup) :
    (keysOf (buildRowDict columns row)).length = row.length := by
  rw [List.range_eq_range'] at hnd
  have hnd2 : (keysOf (assignedPairs columns 0 row)).Nodup := by
    rw [keysOf_assignedPairs]
    exact hnd
  unfold buildRowDict
  rw [buildRowAux_eq_append columns row [] 0 hnd2
    (fun k _ hk => by simp [keysOf] at hk), List.nil_append]
  unfold keysOf
  rw [List.length_map, assignedPairs_length]

theorem keysOf_specSyntheticRecord (row : List PyVal) :
    keysOf (specSyntheticRecord row) =
      (List.range row.length).map (fun i => "col_" ++ toString i) := by
  unfold keysOf specSyntheticRecord
  rw [List.map_map, List.range_eq_range']
  have h1 : (Prod.fst ∘ fun p : Nat × PyVal => ("col_" ++ toString p.1, p.2)) =
      (fun i => "col_" ++ toString i) ∘ Prod.fst := rfl
  rw [h1, ← List.map_map]
  show ((List.enumFrom 0 row).map Prod.fst).map _ = _
  rw [List.enumFrom_map_fst]

/-- `schema = None` (or the attribute missing entirely). -/
def schemaAbsentOrFalsy (s : SchemaAttr) : Prop :=
  s = SchemaAttr.absent ∨ s = SchemaAttr.falsy

/-- The manifest location quietly offers no schema: absent, falsy, or present
without a `schema` attribute. -/
def manifestYieldsNoNames (m : ManifestAttr) : Prop :=
  m = ManifestAttr.absent ∨ m = ManifestAttr.falsy ∨
    m = ManifestAttr.present ManifestSchemaAttr.absentAttr

theorem resolveColumns_nil_of_quiet {r : StmtResult}
    (hs : schemaAbsentOrFalsy r.schema) (hm : manifestYieldsNoNames r.manifest) :
    resolveColumns r = [] := by
  obtain ⟨rows_, s, m⟩ := r
  rcases hs with rfl | rfl <;>
    rcases hm with rfl | rfl | rfl <;> rfl

/-! ## The claims -/

/-- C1, counterexample: rows `[[1, 2]]` with schema `["a", "a"]` (two columns,
matching the row arity) do not normalize to a RowRecord whose keys in insertion
order are `["a", "a"]` — the Python dict collapses the duplicate key. -/
theorem claim_c1_counterexample :
    (processRows ["a", "a"] [[PyVal.int 1, PyVal.int 2]]).map keysOf ≠
      [["a", "a"]] := by
  intro h
  exact absurd (show ([["a"]] : List (List String)) = [["a", "a"]] from h)
    (by decide)

/-- C1 (amended with pairwise-distinct column names): for every non-empty list
of rows of uniform arity and a schema with pairwise-distinct column names whose
count equals the row arity, each row normalizes to the RowRecord pairing the
schema's names, in order, with the row's values at the same positions. -/
theorem claim_c1_amended (columns : List String) (rows : List (List PyVal))
    (_hne : rows ≠ []) (hnd : columns.Nodup)
    (harity : ∀ row ∈ rows, row.length = columns.length) :
    processRows columns rows = rows.map (fun row => columns.zip row) := by
  unfold processRows
  apply List.map_congr_left
  intro row hrow
  exact buildRowDict_eq_zip hnd (harity row hrow)

/-- C1, witness: the spec's own example. -/
theorem claim_c1_witness :
    processRows ["id", "name"]
      [[PyVal.int 1, PyVal.str "a"], [PyVal.int 2, PyVal.str "b"]] =
      [[("id", PyVal.int 1), ("name", PyVal.str "a")],
       [("id", PyVal.int 2), ("name", PyVal.str "b")]] := by
  rw [claim_c1_amended ["id", "name"]
    [[PyVal.int 1, PyVal.str "a"], [PyVal.int 2, PyVal.str "b"]]
    (List.cons_ne_nil _ _) (by decide) (by decide)]
  rfl

/-- C2, counterexample: with duplicate resolved column names `["a", "a"]` the
RowRecord for the arity-2 row `[1, 2]` has a key set of cardinality 1, not 2. -/
theorem claim_c2_counterexample :
    (keysOf (buildRowDict ["a", "a"] [PyVal.int 1, PyVal.int 2])).length ≠ 2 := by
  decide

/-- C2 (amended): the number of RowRecords always equals the number of input
rows; and the key set of a row's RowRecord has cardinality equal to that row's
arity provided the names assigned to the row's positions (schema names padded
with synthetic `col_i` names) are pairwise distinct. -/
theorem claim_c2_amended (columns : List String) (rows : List (List PyVal)) :
    (processRows columns rows).length = rows.length ∧
      ∀ row ∈ rows,
        ((List.range row.length).map (colName columns)).Nodup →
          (keysOf (buildRowDict columns row)).length = row.length := by
  refine ⟨List.length_map rows _, ?_⟩
  intro row _ hnd
  exact keysOf_buildRowDict_length hnd

/-- C2, witness. -/
theorem claim_c2_witness :
    (processRows ["id", "name"] [[PyVal.int 1, PyVal.str "a"]]).length = 1 ∧
      (keysOf (buildRowDict ["id", "name"] [PyVal.int 1, PyVal.str "a"])).length = 2 := by
  obtain ⟨h1, h2⟩ := claim_c2_amended ["id", "name"] [[PyVal.int 1, PyVal.str "a"]]
  exact ⟨h1, h2 _ (List.mem_singleton.mpr rfl) (by decide)⟩

/-- C3: whenever neither schema location yields column names (absent attribute,
falsy value, missing `manifest.schema`, or an exception during extraction —
`badSchema`), normalization still totally succeeds and every row degrades to
the synthetic-naming fallback record with keys `col_0 … col_{n-1}`. -/
theorem claim_c3 (r : StmtResult) (h : badSchema r) :
    normalize r = r.data_array.map specSyntheticRecord := by
  unfold normalize processRows
  apply List.map_congr_left
  intro row _
  exact buildRowDict_synthetic (colName_resolve_bad h) row

/-- C3, witness: a schema access that raises degrades to `col_0`, `col_1`. -/
theorem claim_c3_witness :
    normalize ⟨[[PyVal.int 1, PyVal.int 2]], SchemaAttr.raisesOnAccess,
      ManifestAttr.absent⟩ =
      [[("col_0", PyVal.int 1), ("col_1", PyVal.int 2)]] := by
  rw [claim_c3 ⟨[[PyVal.int 1, PyVal.int 2]], SchemaAttr.raisesOnAccess,
    ManifestAttr.absent⟩ ⟨rfl, rfl⟩]
  rfl

/-- C4, counterexample: schema `["col_1"]` is shorter than the arity-2 row
`[1, 2]`; the excess position 1 is assigned the synthetic name `col_1`, which
collides with the schema name of position 0, so the RowRecord has 1 key — the
schema's length — not 2, the row's arity. -/
theorem claim_c4_counterexample :
    (keysOf (buildRowDict ["col_1"] [PyVal.int 1, PyVal.int 2])).length ≠ 2 := by
  decide

/-- C4 (amended): an excess position `i` (beyond the resolved column names) is
always assigned the synthetic name `col_i` and its pair is present in the
RowRecord — excess values are never dropped; and the RowRecord's key count
equals the row's arity provided the names assigned to the row's positions are
pairwise distinct (which a collision such as a schema name `col_1` defeats). -/
theorem claim_c4_amended (columns : List String) (row : List PyVal) (i : Nat)
    (h1 : columns.length ≤ i) (h2 : i < row.length) :
    ("col_" ++ toString i, row.get ⟨i, h2⟩) ∈ buildRowDict columns row ∧
      (((List.range row.length).map (colName columns)).Nodup →
        (keysOf (buildRowDict columns row)).length = row.length) := by
  constructor
  · have hmem := mem_buildRowAux_at columns row [] 0 i (by simpa using h2)
      (fun j hj => by
        rw [Nat.zero_add] at hj ⊢
        rw [colName_synthetic h1, colName_synthetic (by omega)]
        exact colI_ne (by omega))
    rw [Nat.zero_add, colName_synthetic h1] at hmem
    exact hmem
  · intro hnd
    exact keysOf_buildRowDict_length hnd

/-- C4, witness: with no schema at all, position 0 gets `col_0` and the key
count equals the arity. -/
theorem claim_c4_witness :
    ("col_0", PyVal.int 5) ∈ buildRowDict [] [PyVal.int 5] ∧
      (keysOf (buildRowDict [] [PyVal.int 5])).length = 1 := by
  obtain ⟨ha, hb⟩ := claim_c4_amended [] [PyVal.int 5] 0 (by decide) (by decide)
  exact ⟨ha, hb (by decide)⟩

/-- C5: when no schema is available at either location (`schema = None` and
the manifest quietly yields nothing), every produced RowRecord uses exactly
the keys `col_0 … col_{n-1}`, `n` being the uniform row arity. -/
theorem claim_c5 (r : StmtResult) (n : Nat)
    (hs : schemaAbsentOrFalsy r.schema) (hm : manifestYieldsNoNames r.manifest)
    (_hne : r.data_array ≠ []) (harity : ∀ row ∈ r.data_array, row.length = n) :
    ∀ rec ∈ normalize r,
      keysOf rec = (List.range n).map (fun i => "col_" ++ toString i) := by
  intro rec hrec
  unfold normalize processRows at hrec
  obtain ⟨row, hrow, rfl⟩ := List.mem_map.mp hrec
  rw [resolveColumns_nil_of_quiet hs hm] at *
  rw [buildRowDict_synthetic (fun j => by simp [colName]) row,
    keysOf_specSyntheticRecord, harity row hrow]

/-- C5, witness. -/
theorem claim_c5_witness :
    keysOf (buildRowDict
      (resolveColumns ⟨[[PyVal.int 1, PyVal.int 2]], SchemaAttr.falsy,
        ManifestAttr.absent⟩) [PyVal.int 1, PyVal.int 2]) =
      ["col_0", "col_1"] := by
  exact claim_c5 ⟨[[PyVal.int 1, PyVal.int 2]], SchemaAttr.falsy,
      ManifestAttr.absent⟩ 2 (Or.inr rfl) (Or.inl rfl) (List.cons_ne_nil _ _)
    (by decide) _ (List.mem_singleton.mpr rfl)

/-- C6, counterexample: on an SDK exception `list_workspace_files` returns the
empty *list*, not a result dictionary carrying a `success` flag. -/
theorem claim_c6_counterexample :
    hasSuccessFlag (list_workspace_files (SdkCall.exn "boom")) = false ∧
      list_workspace_files (SdkCall.exn "boom") = PyVal.list [] :=
  ⟨rfl, rfl⟩

/-- C6 (amended): every method catches SDK exceptions, but the failure shape
is uniform only for `test_connection`, `upload_file_to_workspace`,
`create_notebook_from_template` and `execute_sql_query`, which return a dict
with `success = False`; `list_workspace_files` and `get_clusters` instead
return the empty list, and `export_workspace_file` returns `None`. -/
theorem claim_c6_amended (e host wpath npath wid : String)
    (lw : SdkCall (List String)) (execStmt : String → SdkCall Statement)
    (b64s : String → Option (List Nat)) (b64b : List Nat → Option (List Nat))
    (enc : String → List Nat) :
    test_connection host (SdkCall.exn e) =
      PyVal.dict [("success", PyVal.bool false), ("error", PyVal.str e)] ∧
    upload_file_to_workspace wpath (SdkCall.exn e) =
      PyVal.dict [("success", PyVal.bool false), ("error", PyVal.str e)] ∧
    create_notebook_from_template npath (SdkCall.exn e) =
      PyVal.dict [("success", PyVal.bool false), ("error", PyVal.str e)] ∧
    execute_sql_query (some wid) lw (fun _ => SdkCall.exn e) =
      PyVal.dict [("success", PyVal.bool false), ("error", PyVal.str e)] ∧
    execute_sql_query none (SdkCall.exn e) execStmt =
      PyVal.dict [("success", PyVal.bool false), ("error", PyVal.str e)] ∧
    list_workspace_files (SdkCall.exn e) = PyVal.list [] ∧
    get_clusters (SdkCall.exn e) = PyVal.list [] ∧
    export_workspace_file b64s b64b enc (SdkCall.exn e) = PyVal.pynone :=
  ⟨rfl, rfl, rfl, rfl, rfl, rfl, rfl, rfl⟩

/-- C7: normalization is idempotent — re-normalizing a produced RowRecord as a
single-row input, with its keys (in order) as schema, reproduces the record. -/
theorem claim_c7 (columns : List String) (rows : List (List PyVal))
    (rec : List (String × PyVal)) (h : rec ∈ processRows columns rows) :
    processRows (keysOf rec) [rec.map Prod.snd] = [rec] := by
  obtain ⟨row, hrow, rfl⟩ := List.mem_map.mp h
  show [buildRowDict (keysOf (buildRowDict columns row))
    ((buildRowDict columns row).map Prod.snd)] = _
  congr 1
  rw [buildRowDict_eq_zip (keysOf_buildRowDict_nodup columns row)
    (by simp [keysOf])]
  exact (List.zip_of_prod rfl rfl).symm

/-- C7, witness. -/
theorem claim_c7_witness :
    processRows ["id"] [[PyVal.int 7]] = [[("id", PyVal.int 7)]] :=
  claim_c7 ["id"] [[PyVal.int 7]] [("id", PyVal.int 7)]
    (List.mem_singleton.mpr rfl)

/-- C8: column-name resolution priority — a present (truthy) direct schema is
used whatever the manifest holds; the manifest's names are used when the direct
schema is absent or falsy. -/
theorem claim_c8 (names ns : List String) (rows_ : List (List PyVal))
    (m : ManifestAttr) (s : SchemaAttr)
    (hs : s = SchemaAttr.absent ∨ s = SchemaAttr.falsy) :
    resolveColumns ⟨rows_, SchemaAttr.cols names, m⟩ = names ∧
      resolveColumns ⟨rows_, s, ManifestAttr.present (ManifestSchemaAttr.cols ns)⟩ = ns := by
  refine ⟨rfl, ?_⟩
  rcases hs with rfl | rfl <;> rfl

/-- C8, witness: the direct schema wins even with a manifest schema present. -/
theorem claim_c8_witness :
    resolveColumns ⟨[], SchemaAttr.cols ["a"],
        ManifestAttr.present (ManifestSchemaAttr.cols ["b"])⟩ = ["a"] ∧
      resolveColumns ⟨[], SchemaAttr.absent,
        ManifestAttr.present (ManifestSchemaAttr.cols ["b"])⟩ = ["b"] :=
  claim_c8 ["a"] ["b"] []
    (ManifestAttr.present (ManifestSchemaAttr.cols ["b"])) SchemaAttr.absent
    (Or.inl rfl)

/-- C9: an empty row list normalizes to the empty sequence whatever the schema
metadata, and `execute_sql_query` reports it as a success with empty data. -/
theorem claim_c9 (s : SchemaAttr) (m : ManifestAttr) (wid : String)
    (lw : SdkCall (List String)) (st : Statement)
    (hstate : st.status.state = StatementState.succeeded)
    (hres : st.result = some ⟨[], s, m⟩) :
    normalize ⟨[], s, m⟩ = [] ∧
      execute_sql_query (some wid) lw (fun _ => SdkCall.ok st) =
        PyVal.dict [("success", PyVal.bool true), ("data", PyVal.list []),
          ("statement_id", PyVal.str st.statement_id),
          ("warehouse_id", PyVal.str wid)] := by
  obtain ⟨sid, ⟨state, err⟩, res⟩ := st
  simp only at hstate hres
  subst hstate
  subst hres
  exact ⟨rfl, rfl⟩

/-- C9, witness. -/
theorem claim_c9_witness :
    normalize ⟨[], SchemaAttr.absent, ManifestAttr.absent⟩ = [] ∧
      execute_sql_query (some "w") (SdkCall.ok [])
        (fun _ => SdkCall.ok ⟨"sid", ⟨StatementState.succeeded, none⟩,
          some ⟨[], SchemaAttr.absent, ManifestAttr.absent⟩⟩) =
        PyVal.dict [("success", PyVal.bool true), ("data", PyVal.list []),
          ("statement_id", PyVal.str "sid"), ("warehouse_id", PyVal.str "w")] :=
  claim_c9 SchemaAttr.absent ManifestAttr.absent "w" (SdkCall.ok [])
    ⟨"sid", ⟨StatementState.succeeded, none⟩,
      some ⟨[], SchemaAttr.absent, ManifestAttr.absent⟩⟩ rfl rfl

/-- C10: `export_workspace_file` is total; it returns `None` exactly when the
SDK export call raises or the response carries no (truthy) content; when the
content fails to base64-decode, it still returns bytes — the content itself if
it is bytes, else the string UTF-8-encoded. -/
theorem claim_c10 (b64s : String → Option (List Nat))
    (b64b : List Nat → Option (List Nat)) (enc : String → List Nat)
    (e : String) (bs : List Nat) (s : String)
    (hbs : bs ≠ []) (hs : s ≠ "") (hb : b64b bs = none) (hbss : b64s s = none) :
    export_workspace_file b64s b64b enc (SdkCall.exn e) = PyVal.pynone ∧
    export_workspace_file b64s b64b enc (SdkCall.ok ExportContent.absent) =
      PyVal.pynone ∧
    export_workspace_file b64s b64b enc (SdkCall.ok (ExportContent.bytes [])) =
      PyVal.pynone ∧
    export_workspace_file b64s b64b enc (SdkCall.ok (ExportContent.str "")) =
      PyVal.pynone ∧
    export_workspace_file b64s b64b enc (SdkCall.ok (ExportContent.bytes bs)) =
      PyVal.bytes bs ∧
    export_workspace_file b64s b64b enc (SdkCall.ok (ExportContent.str s)) =
      PyVal.bytes (enc s) ∧
    (∀ c, export_workspace_file b64s b64b enc (SdkCall.ok c) = PyVal.pynone →
      c = ExportContent.absent ∨ c = ExportContent.bytes [] ∨
        c = ExportContent.str "") := by
  refine ⟨rfl, rfl, rfl, rfl, ?_, ?_, ?_⟩
  · show (if bs = [] then PyVal.pynone else
      match b64b bs with
      | some decoded => PyVal.bytes decoded
      | none => PyVal.bytes bs) = PyVal.bytes bs
    rw [if_neg hbs, hb]
  · show (if s = "" then PyVal.pynone else
      match b64s s with
      | some decoded => PyVal.bytes decoded
      | none => PyVal.bytes (enc s)) = PyVal.bytes (enc s)
    rw [if_neg hs, hbss]
  · intro c hc
    cases c with
    | absent => exact Or.inl rfl
    | bytes bs2 =>
      cases bs2 with
      | nil => exact Or.inr (Or.inl rfl)
      | cons x xs =>
        exfalso
        revert hc
        show (if (x :: xs) = ([] : List Nat) then PyVal.pynone else
          match b64b (x :: xs) with
          | some decoded => PyVal.bytes decoded
          | none => PyVal.bytes (x :: xs)) = PyVal.pynone → False
        rw [if_neg (List.cons_ne_nil x xs)]
        cases b64b (x :: xs) with
        | some d => intro hcc; exact PyVal.noConfusion hcc
        | none => intro hcc; exact PyVal.noConfusion hcc
    | str s2 =>
      by_cases hs2 : s2 = ""
      · exact Or.inr (Or.inr (by rw [hs2]))
      · exfalso
        revert hc
        show (if s2 = "" then PyVal.pynone else
          match b64s s2 with
          | some decoded => PyVal.bytes decoded
          | none => PyVal.bytes (enc s2)) = PyVal.pynone → False
        rw [if_neg hs2]
        cases b64s s2 with
        | some d => intro hcc; exact PyVal.noConfusion hcc
        | none => intro hcc; exact PyVal.noConfusion hcc

/-- C10, witness. -/
theorem claim_c10_witness :
    export_workspace_file (fun _ => none) (fun _ => none)
      (fun t => [t.length]) (SdkCall.exn "boom") = PyVal.pynone ∧
    export_workspace_file (fun _ => none) (fun _ => none)
      (fun t => [t.length]) (SdkCall.ok (ExportContent.bytes [7])) =
      PyVal.bytes [7] ∧
    export_workspace_file (fun _ => none) (fun _ => none)
      (fun t => [t.length]) (SdkCall.ok (ExportContent.str "x")) =
      PyVal.bytes [1] := by
  have h := claim_c10 (fun _ => none) (fun _ => none) (fun t => [t.length])
    "boom" [7] "x" (by decide) (by decide) rfl rfl
  exact ⟨h.1, h.2.2.2.2.1, h.2.2.2.2.2.1⟩

end DatabricksClient
